import Mathlib

/-!
Verification of the trace-level reshape/squeeze ops of the tripy frontend
(`tripy/frontend/trace/ops/reshape.py`), as a shallow embedding.

Conventions used throughout:
* Tensors are represented by the data the ops actually read: their static
  shape (a `List Int` of per-dimension sizes), their rank, and whether they
  carry the `Shape` tag.
* Python exceptions become an `Except Err` result.  The error constructors
  are named after the failure taxonomy of the design document:
  `userArgumentError` is the `raise_error` in the public `reshape`,
  `shapeInferenceError` is the failed assertion in `Reshape.infer_rank`,
  `staticShapeViolation` is the `ValueError` in `squeeze_shape`, and
  `typeError` models Python's `TypeError` (e.g. `len(None)`).
* Python float division of integers is modelled as exact division in `ℚ`.
-/

deriving instance DecidableEq for Except

namespace Tripy

/-- An element of a literal target-shape sequence passed to the public
`reshape`: a Python `int` literal, a scalar `Tensor` (represented by its
runtime value), or a Python float (produced by wildcard substitution). -/
inductive ShapeEntry
  | lit (n : Int)
  | tensorE (v : ℚ)
  | floatLit (q : ℚ)
deriving DecidableEq

/-- The test `isinstance(dim, int) and dim == -1` from the source: only an
`int` literal equal to `-1` is a wildcard. -/
def isWildcard : ShapeEntry → Bool
  | .lit n => n = -1
  | _ => false

/-- The numeric value an entry contributes to shape arithmetic. -/
def entryVal : ShapeEntry → ℚ
  | .lit n => (n : ℚ)
  | .tensorE v => v
  | .floatLit q => q

/-- Failure modes of the modelled code, named after the design document's
error taxonomy (see the module docstring for the mapping to the Python
exceptions actually raised). -/
inductive Err
  | userArgumentError (shape : List ShapeEntry)
  | shapeInferenceError
  | staticShapeViolation (idx : Nat) (size : Int)
  | typeError
  | indexError
deriving DecidableEq

/-- The `known_dims_product` loop of `compute_unknown_dim`: multiply every
entry that is not the `-1` wildcard (scalar tensors included). -/
def known_dims_product (out_shape : List ShapeEntry) : ℚ :=
  ((out_shape.filter (fun dim => !isWildcard dim)).map entryVal).prod

/-- The `total_elements` loop of `compute_unknown_dim`: product of the
input's per-dimension sizes. -/
def total_elements (input_shape : List Int) : ℚ :=
  (input_shape.map (fun n => (n : ℚ))).prod

/-- `compute_unknown_dim` from the source: `total_elements / known_dims_product`
(Python float division, modelled exactly over `ℚ`). -/
def compute_unknown_dim (input_shape : List Int) (out_shape : List ShapeEntry) : ℚ :=
  total_elements input_shape / known_dims_product out_shape

/-- The wildcard scan of the public `reshape`: walk the entries keeping the
index of the wildcard seen so far (`acc`, the `unknown_dim_index` variable);
a second wildcard raises the error naming the full original shape. -/
def findUnknownLoop (orig : List ShapeEntry) :
    List ShapeEntry → Option Nat → Nat → Except Err (Option Nat)
  | [], acc, _ => .ok acc
  | dim :: rest, acc, i =>
    if isWildcard dim then
      match acc with
      | some _ => .error (.userArgumentError orig)
      | none => findUnknownLoop orig rest (some i) (i + 1)
    else findUnknownLoop orig rest acc (i + 1)

/-- The public `reshape` wildcard resolution (literal-sequence path): scan
for wildcards and, if exactly one is present, substitute
`compute_unknown_dim` for it. -/
def reshape (input_shape : List Int) (shape : List ShapeEntry) :
    Except Err (List ShapeEntry) :=
  match findUnknownLoop shape shape none 0 with
  | .error e => .error e
  | .ok none => .ok shape
  | .ok (some i) => .ok (shape.set i (.floatLit (compute_unknown_dim input_shape shape)))

/-- Number of wildcard entries in a target shape. -/
def countWildcards (shape : List ShapeEntry) : Nat :=
  shape.countP isWildcard

/-- `Reshape.infer_shape_output_idxs`: the output is wrapped as a `Shape`
iff input 0 is a `Shape` and the `output_rank` attribute equals 1 (Python's
`None == 1` is `False`, so an omitted `output_rank` never wraps). -/
def Reshape.infer_shape_output_idxs (inputIsShape : Bool) (output_rank : Option Int) :
    List Nat :=
  if inputIsShape = true ∧ output_rank = some 1 then [0] else []

/-- `Reshape.infer_rank`: use `output_rank` when given; otherwise the rank
is the statically-known length of the second (shape-valued) input, i.e. the
single entry of `get_trace_shape(self.inputs[1])`.  The two `assert`
statements (`len == 1` and `>= 0`, where a negative entry is the dynamic
"unknown" marker) are the `shapeInferenceError` failure mode. -/
def Reshape.infer_rank (output_rank : Option Int) (shape_of_shape_input : List Int) :
    Except Err Int :=
  match output_rank with
  | some r => .ok r
  | none =>
    match shape_of_shape_input with
    | [n] => if 0 ≤ n then .ok n else .error .shapeInferenceError
    | _ => .error .shapeInferenceError

/-- Modelled from the spec: `op_utils.ShapeOutputIdxPolicies.never_return_shape`
(the op-utils module is not part of the given source).  Per the spec,
squeeze's output "is never treated as a shape-describing tensor even if the
input was", regardless of the input's tag. -/
def never_return_shape (_inputIsShape : Bool) : List Nat := []

/-- `Squeeze.infer_shape_output_idxs` is the `never_return_shape` policy. -/
def Squeeze.infer_shape_output_idxs : Bool → List Nat := never_return_shape

/-- Python's `list.pop(idx)` for a valid non-negative index: remove the
element at position `idx`. -/
def popAt : List Int → Nat → List Int
  | [], _ => []
  | _ :: xs, 0 => xs
  | x :: xs, idx + 1 => x :: popAt xs idx

/-- The `for idx in indices_to_squeeze` loop of `squeeze_shape`, after the
descending sort: pop each index whose size is 1, raise the
`staticShapeViolation` (`ValueError` in the source) with the offending index
and the size seen at that moment otherwise.  An out-of-range index is
Python's `IndexError`. -/
def squeezeLoop : List Int → List Nat → Except Err (List Int)
  | shape, [] => .ok shape
  | shape, idx :: rest =>
    if h : idx < shape.length then
      if shape.get ⟨idx, h⟩ = 1 then squeezeLoop (popAt shape idx) rest
      else .error (.staticShapeViolation idx (shape.get ⟨idx, h⟩))
    else .error .indexError

/-- `squeeze_shape` from `Squeeze.infer_rank`: with no indices, drop every
dimension equal to 1; otherwise sort the indices in descending order
(`sort(reverse=True)`) and pop them one by one. -/
def squeeze_shape (shape : List Int) (indices_to_squeeze : List Nat) :
    Except Err (List Int) :=
  if indices_to_squeeze.isEmpty then .ok (shape.filter (fun dim => dim ≠ 1))
  else squeezeLoop shape (List.insertionSort (fun a b => b ≤ a) indices_to_squeeze)

/-- `Squeeze.infer_rank`.  The `dims` attribute is whatever object the public
`squeeze` forwarded: `none` models Python `None`, on which `len(self.dims)`
raises a `TypeError`.  With non-empty dims the rank is
`inputs[0].rank - len(self.dims)`; with empty dims the statically-known input
shape is squeezed and stored (returned here) as `out_shape`. -/
def Squeeze.infer_rank (input_rank : Int) (input_0_shape : List Int)
    (dims : Option (List Nat)) : Except Err (Int × Option (List Int)) :=
  match dims with
  | none => .error .typeError
  | some ds =>
    if 0 < ds.length then .ok (input_rank - ds.length, none)
    else
      match squeeze_shape input_0_shape ds with
      | .ok out_shape => .ok ((out_shape.length : Int), some out_shape)
      | .error e => .error e

/-- The `select_indices` list comprehension of `Squeeze.to_flat_ir`:
`[i for i in range(inputs[0].rank) if i not in self.dims]`. -/
def select_indices (input_rank : Nat) (dims : List Nat) : List Nat :=
  (List.range input_rank).filter (fun i => !decide (i ∈ dims))

/-- The rank-1 target-shape tensor materialized by `Squeeze.to_flat_ir`,
by its list of values: with non-empty dims, the input-shape scalars sliced
at each retained index and concatenated (an empty selection yields the
constant empty shape); with empty dims, the precomputed `out_shape`. -/
def Squeeze.to_flat_ir_shape (input_rank : Nat) (input_shape_vals : List Int)
    (dims : List Nat) (out_shape : Option (List Int)) : List Int :=
  if 0 < dims.length then
    (select_indices input_rank dims).map (fun i => input_shape_vals.getD i 0)
  else out_shape.getD []

/-- A fully-constructed-and-lowered `Squeeze` node over an input with fully
known static shape: run rank inference, then lowering; result is the output
rank and the resolved output-shape values. -/
def squeezeNode (input_shape : List Int) (dims : Option (List Nat)) :
    Except Err (Int × List Int) :=
  match Squeeze.infer_rank (input_shape.length : Int) input_shape dims with
  | .error e => .error e
  | .ok (r, out) =>
    .ok (r, Squeeze.to_flat_ir_shape input_shape.length input_shape (dims.getD []) out)

/-- The `dims` argument of the public `squeeze`: omitted (Python default
`None`), a single `int`, or a tuple of indices. -/
inductive DimsArg
  | noneA
  | intA (i : Nat)
  | tupleA (l : List Nat)
deriving DecidableEq

/-- `utils.make_tuple` on an `int`. -/
def make_tuple (i : Nat) : List Nat := [i]

/-- The public `squeeze`: an `int` is wrapped with `make_tuple`; anything
else — including the default `None` — is forwarded to the node unchanged. -/
def squeeze (input_shape : List Int) (dims : DimsArg) :
    Except Err (Int × List Int) :=
  squeezeNode input_shape
    (match dims with
     | .noneA => none
     | .intA i => some (make_tuple i)
     | .tupleA l => some l)

/-- The indices selected and the values kept, as one helper: entries of
`l` at the positions `i < l.length` satisfying `p`. -/
def pickIdx (l : List Int) (p : Nat → Bool) : List Int :=
  ((List.range l.length).filter p).map (fun i => l.getD i 0)

/-- The ascending list of indices of size-1 dimensions of a shape. -/
def onesIdxs (shape : List Int) : List Nat :=
  (List.range shape.length).filter (fun i => decide (shape.getD i 0 = 1))

lemma findUnknownLoop_error (orig : List ShapeEntry) (l : List ShapeEntry) :
    ∀ (i : Nat) (acc : Option Nat),
      (2 ≤ l.countP isWildcard ∨ (acc.isSome ∧ 1 ≤ l.countP isWildcard)) →
      findUnknownLoop orig l acc i = .error (.userArgumentError orig) := by
  induction l with
  | nil => intro i acc h; simp at h
  | cons d rest ih =>
    intro i acc h
    by_cases hw : isWildcard d
    · cases acc with
      | some j => simp [findUnknownLoop, hw]
      | none =>
        have h2 : 2 ≤ (d :: rest).countP isWildcard := by
          rcases h with h | h
          · exact h
          · simp at h
        rw [List.countP_cons, if_pos hw] at h2
        have hcnt : 1 ≤ rest.countP isWildcard := by omega
        simp only [findUnknownLoop, hw, if_true]
        exact ih (i + 1) (some i) (Or.inr ⟨rfl, hcnt⟩)
    · have hcnt := h
      simp only [List.countP_cons, hw, if_false] at hcnt
      simp only [findUnknownLoop, hw, if_false]
      exact ih (i + 1) acc (by simpa using hcnt)

lemma findUnknownLoop_ok_zero (orig : List ShapeEntry) (l : List ShapeEntry) :
    ∀ (i : Nat) (acc : Option Nat), l.countP isWildcard = 0 →
      findUnknownLoop orig l acc i = .ok acc := by
  induction l with
  | nil => intro i acc _; rfl
  | cons d rest ih =>
    intro i acc h
    rw [List.countP_cons] at h
    have hw : isWildcard d = false := by
      by_cases hw : isWildcard d
      · rw [if_pos hw] at h; omega
      · exact (Bool.not_eq_true _) ▸ hw
    rw [hw] at h
    simp only [Bool.false_eq_true, if_false, Nat.add_zero] at h
    simp only [findUnknownLoop, hw, Bool.false_eq_true, if_false]
    exact ih (i + 1) acc h

lemma findUnknownLoop_ok_one (orig : List ShapeEntry) (l : List ShapeEntry) :
    ∀ (i : Nat), l.countP isWildcard = 1 →
      findUnknownLoop orig l none i = .ok (some (i + l.findIdx isWildcard)) := by
  induction l with
  | nil => intro i h; simp at h
  | cons d rest ih =>
    intro i h
    rw [List.countP_cons] at h
    by_cases hw : isWildcard d
    · have h0 : rest.countP isWildcard = 0 := by rw [if_pos hw] at h; omega
      simp only [findUnknownLoop, hw, if_true, List.findIdx_cons, cond_true]
      rw [findUnknownLoop_ok_zero orig rest (i + 1) (some i) h0]
      simp
    · have h1 : rest.countP isWildcard = 1 := by rw [if_neg hw] at h; omega
      simp only [findUnknownLoop, hw, Bool.false_eq_true, if_false, List.findIdx_cons,
        cond_false]
      rw [ih (i + 1) h1]
      congr 2
      omega

lemma prod_set_wildcard (l : List ShapeEntry) :
    ∀ (q : ℚ), l.countP isWildcard = 1 →
      ((l.set (l.findIdx isWildcard) (.floatLit q)).map entryVal).prod
        = known_dims_product l * q := by
  induction l with
  | nil => intro q h; simp at h
  | cons d rest ih =>
    intro q h
    rw [List.countP_cons] at h
    by_cases hw : isWildcard d
    · have h0 : rest.countP isWildcard = 0 := by rw [if_pos hw] at h; omega
      have hkeep : rest.filter (fun dim => !isWildcard dim) = rest :=
        List.filter_eq_self.mpr (by
          intro a ha
          simpa using (List.countP_eq_zero.mp h0) a ha)
      simp only [List.findIdx_cons, hw, cond_true, List.set_cons_zero, List.map_cons,
        List.prod_cons, known_dims_product, List.filter_cons, Bool.not_eq_eq_eq_not,
        Bool.not_true, entryVal]
      rw [if_neg (by simp [hw]), hkeep]
      rw [known_dims_product] at ih
      ring
    · have h1 : rest.countP isWildcard = 1 := by rw [if_neg hw] at h; omega
      simp only [List.findIdx_cons, hw, cond_false, List.set_cons_succ, List.map_cons,
        List.prod_cons]
      rw [ih q h1]
      simp only [known_dims_product, List.filter_cons]
      rw [if_pos (by simp [hw]), List.map_cons, List.prod_cons]
      ring

/-- C2: with exactly one wildcard in the literal target shape and a nonzero
product of the explicit entries, the public `reshape` substitutes
`total_elements / known_dims_product` at the wildcard's index, and the
product of the resolved entries equals the input's total element count. -/
theorem claim_C2 (ishape : List Int) (shape : List ShapeEntry)
    (h1 : countWildcards shape = 1) (h2 : known_dims_product shape ≠ 0) :
    reshape ishape shape =
      .ok (shape.set (shape.findIdx isWildcard)
        (.floatLit (total_elements ishape / known_dims_product shape))) ∧
    ((shape.set (shape.findIdx isWildcard)
        (.floatLit (total_elements ishape / known_dims_product shape))).map entryVal).prod
      = total_elements ishape := by
  constructor
  · unfold reshape
    rw [findUnknownLoop_ok_one shape shape 0 h1]
    simp [compute_unknown_dim]
  · rw [prod_set_wildcard shape _ h1, mul_comm, div_mul_cancel₀ _ h2]

theorem claim_C2_witness :
    reshape [2, 3] [ShapeEntry.lit 1, ShapeEntry.lit (-1)] =
      .ok ([ShapeEntry.lit 1, ShapeEntry.lit (-1)].set
        ([ShapeEntry.lit 1, ShapeEntry.lit (-1)].findIdx isWildcard)
        (.floatLit (total_elements [2, 3] /
          known_dims_product [ShapeEntry.lit 1, ShapeEntry.lit (-1)]))) ∧
    (([ShapeEntry.lit 1, ShapeEntry.lit (-1)].set
        ([ShapeEntry.lit 1, ShapeEntry.lit (-1)].findIdx isWildcard)
        (.floatLit (total_elements [2, 3] /
          known_dims_product [ShapeEntry.lit 1, ShapeEntry.lit (-1)]))).map entryVal).prod
      = total_elements [2, 3] :=
  claim_C2 [2, 3] [ShapeEntry.lit 1, ShapeEntry.lit (-1)] (by decide)
    (by norm_num [known_dims_product, isWildcard, entryVal])

/-- C3: a literal target shape with two or more wildcard entries makes the
public `reshape` fail with the UserArgumentError naming the offending
shape, before any node is produced. -/
theorem claim_C3 (ishape : List Int) (shape : List ShapeEntry)
    (h : 2 ≤ countWildcards shape) :
    reshape ishape shape = .error (.userArgumentError shape) := by
  unfold reshape
  rw [findUnknownLoop_error shape shape 0 none (Or.inl h)]

theorem claim_C3_witness :
    reshape [5] [ShapeEntry.lit (-1), ShapeEntry.lit (-1), ShapeEntry.lit 3] =
      .error (.userArgumentError
        [ShapeEntry.lit (-1), ShapeEntry.lit (-1), ShapeEntry.lit 3]) :=
  claim_C3 [5] [ShapeEntry.lit (-1), ShapeEntry.lit (-1), ShapeEntry.lit 3] (by decide)

lemma pickIdx_congr (l : List Int) {p q : Nat → Bool} (h : ∀ i, p i = q i) :
    pickIdx l p = pickIdx l q := by
  rw [funext h]

lemma pickIdx_cons (x : Int) (xs : List Int) (p : Nat → Bool) :
    pickIdx (x :: xs) p =
      (if p 0 then [x] else []) ++ pickIdx xs (fun i => p (i + 1)) := by
  have key : (((List.range xs.length).map Nat.succ).filter p).map
      (fun i => (x :: xs).getD i 0) = pickIdx xs (fun i => p (i + 1)) := by
    rw [List.filter_map, List.map_map]
    rfl
  unfold pickIdx
  rw [List.length_cons, List.range_succ_eq_map, List.filter_cons]
  by_cases hp : p 0
  · rw [if_pos hp, if_pos hp, List.map_cons, key]
    rfl
  · rw [if_neg hp, if_neg hp, key]
    rfl

lemma pickIdx_val (l : List Int) (q : Int → Bool) :
    pickIdx l (fun i => q (l.getD i 0)) = l.filter q := by
  induction l with
  | nil => rfl
  | cons x xs ih =>
    rw [pickIdx_cons]
    show (if q x then [x] else []) ++ pickIdx xs (fun i => q (xs.getD i 0)) = _
    rw [ih, List.filter_cons]
    by_cases hq : q x
    · rw [if_pos hq, if_pos hq]
      rfl
    · rw [if_neg hq, if_neg hq]
      rfl

lemma pickIdx_true (l : List Int) : pickIdx l (fun _ => true) = l := by
  have h := pickIdx_val l (fun _ => true)
  rw [List.filter_true] at h
  exact h

lemma popAt_length : ∀ (l : List Int) (idx : Nat), idx < l.length →
    (popAt l idx).length = l.length - 1 := by
  intro l
  induction l with
  | nil => intro idx h; simp at h
  | cons x xs ih =>
    intro idx h
    cases idx with
    | zero => simp [popAt]
    | succ k =>
      have hk : k < xs.length := by simpa using h
      simp only [popAt, List.length_cons]
      rw [ih k hk]
      omega

lemma popAt_getD : ∀ (l : List Int) (idx j : Nat), j < idx →
    (popAt l idx).getD j 0 = l.getD j 0 := by
  intro l
  induction l with
  | nil => intro idx j _; simp [popAt]
  | cons x xs ih =>
    intro idx j h
    cases idx with
    | zero => omega
    | succ k =>
      cases j with
      | zero => simp [popAt]
      | succ m =>
        simp only [popAt, List.getD_cons_succ]
        exact ih k m (by omega)

lemma pickIdx_popAt : ∀ (l : List Int) (idx : Nat) (p : Nat → Bool), idx < l.length →
    pickIdx l (fun i => if i < idx then p i else if i = idx then false else true)
      = pickIdx (popAt l idx) (fun i => if i < idx then p i else true) := by
  intro l
  induction l with
  | nil => intro idx p h; simp at h
  | cons x xs ih =>
    intro idx p h
    cases idx with
    | zero =>
      rw [pickIdx_cons]
      have h0 : (if (0 : Nat) < 0 then p 0 else if (0 : Nat) = 0 then false else true)
          = false := by simp
      rw [h0]
      simp only [Bool.false_eq_true, if_false, List.nil_append]
      calc pickIdx xs
            (fun i => if i + 1 < 0 then p (i + 1) else if i + 1 = 0 then false else true)
          = pickIdx xs (fun _ => true) := pickIdx_congr xs (fun i => by simp)
        _ = xs := pickIdx_true xs
        _ = pickIdx xs (fun _ => true) := (pickIdx_true xs).symm
        _ = pickIdx (popAt (x :: xs) 0) (fun i => if i < 0 then p i else true) :=
            pickIdx_congr xs (fun i => by simp)
    | succ k =>
      have hk : k < xs.length := by simpa using h
      rw [show popAt (x :: xs) (k + 1) = x :: popAt xs k from rfl]
      rw [pickIdx_cons, pickIdx_cons]
      have hL0 : (if (0 : Nat) < k + 1 then p 0 else if (0 : Nat) = k + 1 then false else true)
          = p 0 := if_pos (Nat.succ_pos k)
      have hR0 : (if (0 : Nat) < k + 1 then p 0 else true) = p 0 := if_pos (Nat.succ_pos k)
      rw [hL0, hR0]
      congr 1
      calc pickIdx xs
            (fun i => if i + 1 < k + 1 then p (i + 1) else if i + 1 = k + 1 then false else true)
          = pickIdx xs
            (fun i => if i < k then p (i + 1) else if i = k then false else true) :=
            pickIdx_congr xs (fun i => by
              change (if i + 1 < k + 1 then p (i + 1) else if i + 1 = k + 1 then false else true)
                = _
              exact if_congr (by omega) rfl (if_congr (by omega) rfl rfl))
        _ = pickIdx (popAt xs k) (fun i => if i < k then p (i + 1) else true) :=
            ih k (fun i => p (i + 1)) hk
        _ = pickIdx (popAt xs k) (fun i => if i + 1 < k + 1 then p (i + 1) else true) :=
            pickIdx_congr (popAt xs k) (fun i => by
              change _ = (if i + 1 < k + 1 then p (i + 1) else true)
              exact if_congr (by omega) rfl rfl)

lemma find?_congr_mem {α : Type} (l : List α) {p q : α → Bool}
    (h : ∀ a ∈ l, p a = q a) : l.find? p = l.find? q := by
  induction l with
  | nil => rfl
  | cons x xs ih =>
    have hx := h x (List.mem_cons_self x xs)
    by_cases hpx : p x
    · rw [List.find?_cons_of_pos _ hpx, List.find?_cons_of_pos _ (hx ▸ hpx)]
    · have hpx' : p x = false := (Bool.not_eq_true _) ▸ hpx
      rw [List.find?_cons_of_neg _ (by simp [hpx']),
        List.find?_cons_of_neg _ (by simp [hx ▸ hpx'])]
      exact ih (fun a ha => h a (List.mem_cons_of_mem x ha))

lemma pairwise_gt_of_sorted_nodup : ∀ {s : List Nat},
    s.Pairwise (fun a b => b ≤ a) → s.Nodup → s.Pairwise (fun a b => b < a) := by
  intro s hs hn
  induction s with
  | nil => exact List.Pairwise.nil
  | cons a t ih =>
    rw [List.pairwise_cons] at hs ⊢
    rw [List.nodup_cons] at hn
    refine ⟨fun b hb => lt_of_le_of_ne (hs.1 b hb) fun hba => hn.1 (hba ▸ hb), ih hs.2 hn.2⟩

lemma filter_length_partition (l : List Int) (p : Int → Bool) :
    (l.filter p).length + (l.filter (fun a => !p a)).length = l.length := by
  induction l with
  | nil => rfl
  | cons x xs ih =>
    by_cases hx : p x <;> simp [List.filter_cons, hx] <;> omega

instance : IsTotal Nat fun a b => b ≤ a := ⟨fun a b => le_total b a⟩

instance : IsTrans Nat fun a b => b ≤ a := ⟨fun _ _ _ h1 h2 => le_trans h2 h1⟩

lemma squeezeLoop_eq : ∀ (shape : List Int) (s : List Nat),
    s.Pairwise (fun a b => b < a) → (∀ i ∈ s, i < shape.length) →
    squeezeLoop shape s =
      match s.find? (fun i => !decide (shape.getD i 0 = 1)) with
      | some j => .error (.staticShapeViolation j (shape.getD j 0))
      | none => .ok (pickIdx shape (fun i => !decide (i ∈ s))) := by
  intro shape s
  induction s generalizing shape with
  | nil =>
    intro _ _
    simp only [List.find?_nil]
    show Except.ok shape = Except.ok (pickIdx shape (fun i => !decide (i ∈ ([] : List Nat))))
    exact congrArg _ ((pickIdx_true shape).symm.trans
      (pickIdx_congr shape (fun i => by simp)))
  | cons idx rest ih =>
    intro hsort hlt
    have hidx : idx < shape.length := hlt idx (List.mem_cons_self idx rest)
    have hpair := List.pairwise_cons.mp hsort
    have hrest_lt : ∀ j ∈ rest, j < idx := hpair.1
    have hget : shape.get ⟨idx, hidx⟩ = shape.getD idx 0 :=
      (List.get_eq_getElem shape ⟨idx, hidx⟩).trans (List.getD_eq_getElem shape 0 hidx).symm
    rw [squeezeLoop, dif_pos hidx, hget]
    by_cases hone : shape.getD idx 0 = 1
    · rw [if_pos hone]
      have hrest_len : ∀ j ∈ rest, j < (popAt shape idx).length := by
        intro j hj
        rw [popAt_length shape idx hidx]
        have := hrest_lt j hj
        omega
      rw [ih (popAt shape idx) hpair.2 hrest_len]
      have hfcongr : rest.find? (fun i => !decide ((popAt shape idx).getD i 0 = 1))
          = rest.find? (fun i => !decide (shape.getD i 0 = 1)) :=
        find?_congr_mem rest (fun j hj => by
          rw [popAt_getD shape idx j (hrest_lt j hj)])
      rw [hfcongr]
      have hhead : (fun i => !decide (shape.getD i 0 = 1)) idx = false := by
        simp only [hone]
        simp
      rw [List.find?_cons_of_neg (p := fun i => !decide (shape.getD i 0 = 1)) rest
        (by simpa using hhead)]
      rcases hfind : rest.find? (fun i => !decide (shape.getD i 0 = 1)) with _ | j
      · show Except.ok (pickIdx (popAt shape idx) (fun i => !decide (i ∈ rest)))
          = Except.ok (pickIdx shape (fun i => !decide (i ∈ idx :: rest)))
        refine congrArg _ ?_
        calc pickIdx (popAt shape idx) (fun i => !decide (i ∈ rest))
            = pickIdx (popAt shape idx) (fun i => if i < idx then !decide (i ∈ rest) else true) :=
              pickIdx_congr _ (fun i => by
                by_cases h1 : i < idx
                · rw [if_pos h1]
                · rw [if_neg h1]
                  have hni : i ∉ rest := fun hc => h1 (by
                    have := hrest_lt i hc
                    omega)
                  simp [hni])
          _ = pickIdx shape
              (fun i => if i < idx then !decide (i ∈ rest) else if i = idx then false else true) :=
              (pickIdx_popAt shape idx _ hidx).symm
          _ = pickIdx shape (fun i => !decide (i ∈ idx :: rest)) :=
              pickIdx_congr shape (fun i => by
                by_cases h1 : i < idx
                · have hne : i ≠ idx := by omega
                  rw [if_pos h1]
                  simp [List.mem_cons, hne]
                · rw [if_neg h1]
                  by_cases h2 : i = idx
                  · rw [if_pos h2, h2]
                    simp
                  · rw [if_neg h2]
                    have hni : i ∉ rest := fun hc => h1 (by
                      have := hrest_lt i hc
                      omega)
                    simp [List.mem_cons, h2, hni])
      · have hj : j ∈ rest := List.mem_of_find?_eq_some hfind
        show Except.error (Err.staticShapeViolation j ((popAt shape idx).getD j 0))
          = Except.error (Err.staticShapeViolation j (shape.getD j 0))
        rw [popAt_getD shape idx j (hrest_lt j hj)]
    · rw [if_neg hone]
      have hhead : (fun i => !decide (shape.getD i 0 = 1)) idx = true := by
        simp only [hone]
        simp
      rw [List.find?_cons_of_pos (p := fun i => !decide (shape.getD i 0 = 1)) rest hhead]

/-- C6: `squeeze_shape` on a non-empty list of distinct in-range indices
processes the indices in descending order, so the sizes it inspects and the
entries it keeps are always read at the original positions: if every
targeted dimension has size 1 the result keeps exactly the untargeted
entries in order, and otherwise the StaticShapeViolation (`ValueError`)
reports the first offending index in descending order together with its
original size. -/
theorem claim_C6 (shape : List Int) (l : List Nat)
    (hne : l ≠ []) (hnd : l.Nodup) (hlt : ∀ i ∈ l, i < shape.length) :
    match (List.insertionSort (fun a b => b ≤ a) l).find?
        (fun i => !decide (shape.getD i 0 = 1)) with
    | some j => squeeze_shape shape l = .error (.staticShapeViolation j (shape.getD j 0))
    | none => squeeze_shape shape l = .ok (pickIdx shape (fun i => !decide (i ∈ l))) := by
  have hperm := List.perm_insertionSort (fun a b => b ≤ a) l
  have hsorted : (List.insertionSort (fun a b => b ≤ a) l).Pairwise (fun a b => b ≤ a) :=
    List.sorted_insertionSort (fun a b => b ≤ a) l
  have hndsort : (List.insertionSort (fun a b => b ≤ a) l).Nodup :=
    (hperm.nodup_iff).mpr hnd
  have hstrict := pairwise_gt_of_sorted_nodup hsorted hndsort
  have hltsort : ∀ i ∈ List.insertionSort (fun a b => b ≤ a) l, i < shape.length :=
    fun i hi => hlt i (hperm.mem_iff.mp hi)
  have hss : squeeze_shape shape l
      = squeezeLoop shape (List.insertionSort (fun a b => b ≤ a) l) := by
    rw [squeeze_shape, if_neg]
    simp [List.isEmpty_iff, hne]
  have hmain := squeezeLoop_eq shape (List.insertionSort (fun a b => b ≤ a) l)
    hstrict hltsort
  rcases hfind : (List.insertionSort (fun a b => b ≤ a) l).find?
      (fun i => !decide (shape.getD i 0 = 1)) with _ | j
  · rw [hss, hmain, hfind]
    show Except.ok (pickIdx shape
        (fun i => !decide (i ∈ List.insertionSort (fun a b => b ≤ a) l)))
      = Except.ok (pickIdx shape (fun i => !decide (i ∈ l)))
    exact congrArg _ (pickIdx_congr shape (fun i =>
      congrArg Bool.not (decide_eq_decide.mpr hperm.mem_iff)))
  · rw [hss, hmain, hfind]

theorem claim_C6_witness :
    squeeze_shape [1, 2, 3] [0, 1] = .error (.staticShapeViolation 1 2) :=
  claim_C6 [1, 2, 3] [0, 1] (by decide) (by decide) (by decide)

lemma squeezeNode_empty (ishape : List Int) :
    squeezeNode ishape (some []) =
      .ok (((ishape.filter (fun dim => dim ≠ 1)).length : Int),
        ishape.filter (fun dim => dim ≠ 1)) := rfl

/-- C5: on an input with fully known static shape, squeezing with an
explicit list of indices that is any permutation of the indices of the
size-1 dimensions produces the same output rank and the same resolved
output shape as the remove-all form `dims=()`. -/
theorem claim_C5 (ishape : List Int) (t : List Nat)
    (hperm : t.Perm (onesIdxs ishape)) :
    squeezeNode ishape (some t) = squeezeNode ishape (some []) := by
  by_cases ht : t = []
  · rw [ht]
  · have htlen : 0 < t.length := List.length_pos.mpr ht
    have hmem : ∀ i, i ∈ t ↔ i ∈ onesIdxs ishape := fun i => hperm.mem_iff
    have hrank : Squeeze.infer_rank (ishape.length : Int) ishape (some t)
        = .ok ((ishape.length : Int) - t.length, none) := by
      simp [Squeeze.infer_rank, htlen]
    have hshape : Squeeze.to_flat_ir_shape ishape.length ishape t none
        = pickIdx ishape (fun i => !decide (i ∈ t)) := by
      rw [Squeeze.to_flat_ir_shape, if_pos htlen]
      rfl
    have h1 : pickIdx ishape (fun i => !decide (i ∈ t))
        = pickIdx ishape (fun i => !decide (ishape.getD i 0 = 1)) :=
      pickIdx_congr ishape (fun i => by
        by_cases hi : i < ishape.length
        · have hiff : i ∈ t ↔ ishape.getD i 0 = 1 := by
            rw [hmem i]
            simp [onesIdxs, List.mem_filter, List.mem_range, hi]
          exact congrArg Bool.not (decide_eq_decide.mpr hiff)
        · have hnt : i ∉ t := fun hc => by
            have hmm := (hmem i).mp hc
            simp [onesIdxs, List.mem_filter, List.mem_range] at hmm
            omega
          have hgd : ishape.getD i 0 = 0 := List.getD_eq_default ishape 0 (by omega)
          have hne1 : ¬ishape.getD i 0 = 1 := by
            rw [hgd]
            omega
          exact congrArg Bool.not (decide_eq_decide.mpr (iff_of_false hnt hne1)))
    have h2 : pickIdx ishape (fun i => !decide (ishape.getD i 0 = 1))
        = ishape.filter (fun v => !decide (v = 1)) :=
      pickIdx_val ishape (fun v => !decide (v = 1))
    have h3 : (fun v : Int => !decide (v = 1)) = (fun dim : Int => decide (dim ≠ 1)) := by
      funext v
      rw [decide_not]
    have hpick : pickIdx ishape (fun i => !decide (i ∈ t))
        = ishape.filter (fun dim => dim ≠ 1) := by
      rw [h1, h2, h3]
    have hones : (onesIdxs ishape).length
        = (ishape.filter (fun v => decide (v = 1))).length := by
      have h4 : pickIdx ishape (fun i => decide (ishape.getD i 0 = 1))
          = ishape.filter (fun v => decide (v = 1)) :=
        pickIdx_val ishape (fun v => decide (v = 1))
      calc (onesIdxs ishape).length
          = ((onesIdxs ishape).map (fun i => ishape.getD i 0)).length :=
            (List.length_map _ _).symm
        _ = (ishape.filter (fun v => decide (v = 1))).length := congrArg List.length h4
    have hpart := filter_length_partition ishape (fun v => decide (v = 1))
    have h6 : (ishape.filter (fun a => !decide (a = 1))).length
        = (ishape.filter (fun dim => dim ≠ 1)).length := by
      rw [h3]
    have hlen : (ishape.length : Int) - t.length
        = ((ishape.filter (fun dim => dim ≠ 1)).length : Int) := by
      have hlt' : t.length = (onesIdxs ishape).length := hperm.length_eq
      omega
    rw [squeezeNode_empty]
    unfold squeezeNode
    rw [hrank]
    show Except.ok ((ishape.length : Int) - (t.length : Int),
      Squeeze.to_flat_ir_shape ishape.length ishape t none) = _
    rw [hshape, hpick, hlen]

theorem claim_C5_witness :
    squeezeNode [1, 2, 1] (some [2, 0]) = squeezeNode [1, 2, 1] (some []) :=
  claim_C5 [1, 2, 1] [2, 0] (by decide)

/-- C1 counterexample: a `Reshape` node built with `output_rank = None`
(the shape passed as a runtime tensor) whose shape operand has static shape
`[1]` resolves its output rank to 1; with a Shape-tagged input the claim
demands the output be tagged, but `infer_shape_output_idxs` compares the
raw `output_rank` attribute (`None == 1` is false) and leaves it untagged. -/
theorem claim_C1_cex :
    Reshape.infer_rank none [1] = .ok 1 ∧
    Reshape.infer_shape_output_idxs true none = [] ∧
    Reshape.infer_shape_output_idxs true none ≠ [0] := by decide

/-- C1 amended: a Reshape output is Shape-tagged iff input 0 is Shape-tagged
and the `output_rank` attribute equals 1 (so a tagged output always has
resolved rank 1, but a node with the attribute omitted is never tagged even
when its resolved rank is 1); a Squeeze output is never Shape-tagged,
regardless of the input's tag. -/
theorem claim_C1_amended (b : Bool) (orank : Option Int) (s : List Int) :
    (Reshape.infer_shape_output_idxs b orank = [0] ↔ b = true ∧ orank = some 1) ∧
    Reshape.infer_rank (some 1) s = .ok 1 ∧
    Squeeze.infer_shape_output_idxs b = [] := by
  refine ⟨?_, rfl, rfl⟩
  by_cases h : b = true ∧ orank = some 1 <;>
    simp [Reshape.infer_shape_output_idxs, h]

/-- C4: `Reshape.infer_rank` uses `output_rank` directly when given; when it
is omitted, the output rank is the statically-known length of the second
(shape-valued) input, and a negative (unknown) length or a malformed
(non-rank-1) shape-of-shape fails with the ShapeInferenceError. -/
theorem claim_C4 (r n : Int) (s : List Int) :
    Reshape.infer_rank (some r) s = .ok r ∧
    (0 ≤ n → Reshape.infer_rank none [n] = .ok n) ∧
    (n < 0 → Reshape.infer_rank none [n] = .error .shapeInferenceError) ∧
    (s.length ≠ 1 → Reshape.infer_rank none s = .error .shapeInferenceError) := by
  refine ⟨rfl, ?_, ?_, ?_⟩
  · intro h
    simp [Reshape.infer_rank, h]
  · intro h
    simp [Reshape.infer_rank, not_le.mpr h]
  · intro h
    match s, h with
    | [], _ => rfl
    | [a], h => exact absurd rfl h
    | a :: b :: t, _ => rfl

theorem claim_C4_witness :
    Reshape.infer_rank (some 5) [3, 3] = .ok 5 ∧
    Reshape.infer_rank none [2] = .ok 2 :=
  ⟨(claim_C4 5 2 [3, 3]).1, (claim_C4 5 2 [3, 3]).2.1 (by norm_num)⟩

/-- C7: a Squeeze node with empty `dims` over a fully known static input
shape stores as `out_shape` the input shape with every size-1 dimension
removed (order preserved) and sets the output rank to its length; on
input shape (1,2,1) the result is shape (2,) with rank 1. -/
theorem claim_C7 (r : Int) (ishape : List Int) :
    Squeeze.infer_rank r ishape (some []) =
      .ok (((ishape.filter (fun dim => dim ≠ 1)).length : Int),
        some (ishape.filter (fun dim => dim ≠ 1))) ∧
    squeezeNode [1, 2, 1] (some []) = .ok (1, [2]) := by
  constructor
  · simp [Squeeze.infer_rank, squeeze_shape]
  · decide

/-- C8: for a Squeeze node with non-empty `dims`, the inferred output rank
is the input rank minus the number of entries of `dims`, and lowering
retains exactly the input dimensions whose indices are not in `dims`, in
ascending order; squeezing indices (0, 2) from shape (1, 2, 1) yields (2,). -/
theorem claim_C8 (r : Int) (ishape : List Int) (ds : List Nat) (h : ds ≠ []) :
    Squeeze.infer_rank r ishape (some ds) = .ok (r - ds.length, none) ∧
    (select_indices ishape.length ds).Pairwise (· < ·) ∧
    (∀ i, i ∈ select_indices ishape.length ds ↔ i < ishape.length ∧ i ∉ ds) ∧
    Squeeze.to_flat_ir_shape ishape.length ishape ds none =
      (select_indices ishape.length ds).map (fun i => ishape.getD i 0) ∧
    squeezeNode [1, 2, 1] (some [0, 2]) = .ok (1, [2]) := by
  have hlen : 0 < ds.length := List.length_pos.mpr h
  refine ⟨?_, ?_, ?_, ?_, by decide⟩
  · simp [Squeeze.infer_rank, hlen]
  · exact (List.pairwise_lt_range _).filter _
  · intro i
    simp [select_indices, List.mem_filter, List.mem_range]
  · simp [Squeeze.to_flat_ir_shape, hlen]

theorem claim_C8_witness :
    Squeeze.infer_rank 3 [1, 2, 1] (some [0, 2]) =
      .ok (3 - ([0, 2] : List Nat).length, none) ∧
    squeezeNode [1, 2, 1] (some [0, 2]) = .ok (1, [2]) :=
  ⟨(claim_C8 3 [1, 2, 1] [0, 2] (by decide)).1,
   (claim_C8 3 [1, 2, 1] [0, 2] (by decide)).2.2.2.2⟩

/-- C9 (code bug): with `dims` left at its default (`None`), the public
`squeeze` forwards `None` to the node, and rank inference evaluates
`len(self.dims)` on `None`, raising a `TypeError` — instead of behaving
like `dims=()` (remove all size-1 dimensions) as the docstring promises. -/
theorem claim_C9_bug :
    squeeze [1, 2, 1] .noneA = .error .typeError ∧
    squeeze [1, 2, 1] (.tupleA []) = .ok (1, [2]) := by decide

/-- C10: only a Python-`int` entry equal to -1 is a wildcard: a
scalar-Tensor entry never counts toward the one-wildcard limit and is
multiplied into the known-dimension product during wildcard resolution,
even when its runtime value is -1 (so `reshape` of a 6-element input to
`(tensor(-1), -1)` resolves the lone wildcard to 6 / (-1) = -6). -/
theorem claim_C10 (v : ℚ) (l : List ShapeEntry) :
    isWildcard (.tensorE v) = false ∧
    countWildcards (.tensorE v :: l) = countWildcards l ∧
    known_dims_product (.tensorE v :: l) = v * known_dims_product l ∧
    reshape [6] [.tensorE (-1), .lit (-1)] = .ok [.tensorE (-1), .floatLit (-6)] := by
  refine ⟨rfl, ?_, ?_, ?_⟩
  · simp [countWildcards, List.countP_cons, isWildcard]
  · simp [known_dims_product, List.filter_cons, isWildcard, entryVal]
  · simp only [reshape, findUnknownLoop, isWildcard]
    norm_num [compute_unknown_dim, total_elements, known_dims_product, isWildcard, entryVal]

end Tripy
